import Mathlib

/-!
A shallow embedding of the `lamigrate` schema-migration runner
(package `lamigrate`, files `scanner.go`, `migration.go`, `config.go`,
`drivers/postgres/postgres.go`) together with proofs about its
migration planning and transactional application engine.

Modelling conventions:
* A directory listing is a list of entries (name, isDir); file contents are
  an association list from full path to content.  `os.ReadDir` /
  `os.ReadFile` become lookups.
* The bookkeeping table `lamigrate` is a list of rows `{id, migration,
  stage}` with an auto-increment counter `nextId` (BIGSERIAL).  The UNIQUE
  constraint on `migration` makes `InsertMigration` fail on a duplicate.
* Execution of a migration's SQL body is abstracted by an oracle
  `String → Bool` saying whether the database accepts that SQL; a
  successful execution appends the SQL text to `schemaLog`, the abstract
  record of schema effects.  The `executed_at` column (wall-clock time) is
  not modelled.
* `WithTransaction` increments a ghost counter `txCount` (one `BeginTx`
  call); on error the rows and the schema log revert to their
  pre-transaction values (rollback), on success the new state is kept
  (commit).  The α component of the unit of work models values the Go
  closure writes into captured locals (e.g. the `executed` slice).
* Go strings are compared byte-wise; for valid UTF-8 this equals
  code-point order, so `List Char` lexicographic order is faithful.
-/

namespace Lamigrate

/-- Go type `Direction string` with values `DirectionUp`/`DirectionDown`;
`down` sorts before `up` exactly as the strings "down" < "up" do. -/
inductive Direction where
  | down : Direction
  | up : Direction
deriving DecidableEq, Repr

/-- Comparison of `Direction` values as Go compares the underlying
strings: "down" < "up", so `down ≤ d` always and `up ≤ d` iff `d = up`. -/
def dirLE : Direction → Direction → Bool
  | .down, _ => true
  | .up, .down => false
  | .up, .up => true

/-- Go byte-wise `<` on strings, modelled on the char lists. -/
def charsLT : List Char → List Char → Bool
  | [], [] => false
  | [], _ :: _ => true
  | _ :: _, [] => false
  | a :: as, b :: bs => if a < b then true else if b < a then false else charsLT as bs

/-- Go string `<` (byte-wise lexicographic). -/
def strLt (a b : String) : Prop := charsLT a.data b.data = true

instance strLt.decidable : ∀ a b, Decidable (strLt a b) := fun a b => by
  unfold strLt; infer_instance

/-- Go struct `Migration` from `migration.go` (the `Checksum` field is never
assigned by the engine and is omitted). -/
structure Migration where
  Version : String
  Name : String
  Direction : Direction
  Filename : String
  Path : String
  SQL : String
deriving DecidableEq, Repr

/-- Go method `(m Migration) Key() string`: `m.Version + "_" + m.Name`. -/
def Key (m : Migration) : String := m.Version ++ "_" ++ m.Name

/-- One entry of an `os.ReadDir` listing: a file or directory name. -/
structure Entry where
  name : String
  isDir : Bool
deriving DecidableEq, Repr

/-- Go `unicode.IsSpace` (the Unicode White_Space property), used by
`strings.TrimSpace`. -/
def goIsSpace (c : Char) : Bool :=
  c = '\t' || c = '\n' || c = '\x0b' || c = '\x0c' || c = '\r' || c = ' ' ||
  c = '\x85' || c = '\xa0' || c = '\u1680' ||
  (('\u2000' ≤ c) && (c ≤ '\u200a')) ||
  c = '\u2028' || c = '\u2029' || c = '\u202f' || c = '\u205f' || c = '\u3000'

/-- Go `strings.TrimSpace`: drop leading and trailing white space. -/
def goTrimSpace (s : String) : String :=
  ⟨((s.data.dropWhile goIsSpace).reverse.dropWhile goIsSpace).reverse⟩

/-- If `l` ends with `suffix`, return the part before it. -/
def chopSuffix (l suffix : List Char) : Option (List Char) :=
  if suffix.length ≤ l.length && l.drop (l.length - suffix.length) = suffix then
    some (l.take (l.length - suffix.length))
  else
    none

/-- Whether `c` is a decimal digit (`\d` of Go's regexp). -/
def isDigit (c : Char) : Bool := '0' ≤ c && c ≤ '9'

/-- Matching of `migrationPattern = ^(\d{14})_(.+)\.(up|down)\.sql$`
against a file name, returning the three captures.  The greedy `.+`
makes the name capture maximal, i.e. the literal suffix minimal, so a
name ending in `.up.sql` parses as an up migration even if `.down.` also
occurs earlier; `.` does not match a newline. -/
def matchMigration (filename : String) : Option (String × String × Direction) :=
  let cs := filename.data
  let version := cs.take 14
  let rest := cs.drop 14
  if version.length = 14 && version.all isDigit then
    match rest with
    | '_' :: body =>
      match chopSuffix body ('.' :: 'u' :: 'p' :: '.' :: 's' :: 'q' :: 'l' :: []) with
      | some nameChars =>
        if 1 ≤ nameChars.length && nameChars.all (fun c => c ≠ '\n') then
          some (⟨version⟩, ⟨nameChars⟩, Direction.up)
        else none
      | none =>
        match chopSuffix body ('.' :: 'd' :: 'o' :: 'w' :: 'n' :: '.' :: 's' :: 'q' :: 'l' :: []) with
        | some nameChars =>
          if 1 ≤ nameChars.length && nameChars.all (fun c => c ≠ '\n') then
            some (⟨version⟩, ⟨nameChars⟩, Direction.down)
          else none
        | none => none
    | _ => none
  else none

/-- Go `filepath.Join(dir, name)` for a plain non-empty directory path. -/
def joinPath (dir name : String) : String := dir ++ "/" ++ name

/-- The body of `ScanMigrations`' loop over the directory entries:
skip directories and non-matching names, fail on a name that trims to
empty, otherwise collect the parsed `Migration`. -/
def scanLoop (dir : String) : List Entry → Except String (List Migration)
  | [] => .ok []
  | e :: rest =>
    if e.isDir then scanLoop dir rest
    else
      match matchMigration e.name with
      | none => scanLoop dir rest
      | some (version, rawName, direction) =>
        let migrationName := goTrimSpace rawName
        if migrationName = "" then
          .error ("invalid migration name in file: " ++ e.name)
        else
          match scanLoop dir rest with
          | .error err => .error err
          | .ok ms =>
            .ok ({ Version := version, Name := migrationName,
                   Direction := direction, Filename := e.name,
                   Path := joinPath dir e.name, SQL := "" } :: ms)

/-- The comparator of `ScanMigrations`' `sort.Slice` call, as a total
preorder: by `Version`, then `Name`, then `Direction` ("down" < "up"). -/
def migR (a b : Migration) : Prop :=
  strLt a.Version b.Version ∨
    (a.Version = b.Version ∧
      (strLt a.Name b.Name ∨ (a.Name = b.Name ∧ dirLE a.Direction b.Direction = true)))

instance migR.decidable : DecidableRel migR := fun a b => by
  unfold migR; infer_instance

/-- Go `func ScanMigrations(dir string) ([]Migration, error)`: parse the
directory listing and return the migrations sorted by
(version, name, direction). -/
def ScanMigrations (dir : String) (entries : List Entry) : Except String (List Migration) :=
  match scanLoop dir entries with
  | .error e => .error e
  | .ok ms => .ok (ms.insertionSort migR)

/-- One row of the bookkeeping table `lamigrate`
(`id BIGSERIAL, migration TEXT UNIQUE, stage INT`). -/
structure Row where
  id : Nat
  migration : String
  stage : Int
deriving DecidableEq, Repr

/-- The observable database state: the `lamigrate` table (`rows` plus the
auto-increment counter `nextId`), the abstract log of successfully
executed migration SQL bodies (`schemaLog`), and a ghost count of
`BeginTx` calls (`txCount`). -/
structure DB where
  rows : List Row
  nextId : Nat
  schemaLog : List String
  txCount : Nat
deriving DecidableEq, Repr

/-- Go struct `AppliedMigration` (`migration.go` companion type): one history
record shown by status (`executed_at` not modelled). -/
structure AppliedMigration where
  Migration : String
  Stage : Int
deriving DecidableEq, Repr

/-- The order `ORDER BY stage ASC, id ASC` of `AppliedMigrations`. -/
def rowR (a b : Row) : Prop :=
  a.stage < b.stage ∨ (a.stage = b.stage ∧ a.id ≤ b.id)

instance rowR.decidable : DecidableRel rowR := fun a b => by
  unfold rowR; infer_instance

/-- The order `ORDER BY id DESC` of `MigrationsByStage`. -/
def idDescR (a b : Row) : Prop := b.id ≤ a.id

instance idDescR.decidable : DecidableRel idDescR := fun a b => by
  unfold idDescR; infer_instance

/-- The order `ORDER BY stage DESC` of `StagesDesc`. -/
def intDescR (a b : Int) : Prop := b ≤ a

instance intDescR.decidable : DecidableRel intDescR := fun a b => by
  unfold intDescR; infer_instance

/-- Driver method `AppliedMigrations`: all rows ordered by
`stage ASC, id ASC`, projected to `AppliedMigration`. -/
def AppliedMigrations (db : DB) : List AppliedMigration :=
  (db.rows.insertionSort rowR).map (fun r => { Migration := r.migration, Stage := r.stage })

/-- Driver method `MaxStage`: `SELECT MAX(stage)`, `0` when the table
is empty (`NULL`). -/
def MaxStage (db : DB) : Int :=
  match db.rows.map (fun r => r.stage) with
  | [] => 0
  | s :: rest => rest.foldl max s

/-- Driver method `StagesDesc`: `SELECT DISTINCT stage ... ORDER BY
stage DESC`. -/
def StagesDesc (db : DB) : List Int :=
  ((db.rows.map (fun r => r.stage)).dedup).insertionSort intDescR

/-- The rows of one stage ordered by `id DESC` (the row view behind
`MigrationsByStage`). -/
def rowsOfStageDesc (db : DB) (stage : Int) : List Row :=
  (db.rows.filter (fun r => decide (r.stage = stage))).insertionSort idDescR

/-- Driver method `MigrationsByStage`: `SELECT migration ... WHERE
stage = $1 ORDER BY id DESC`. -/
def MigrationsByStage (db : DB) (stage : Int) : List String :=
  (rowsOfStageDesc db stage).map (fun r => r.migration)

/-- Driver method `InsertMigration`: `INSERT INTO lamigrate
(migration, stage) VALUES ($1, $2)`; the UNIQUE constraint on
`migration` rejects a duplicate key. -/
def InsertMigration (db : DB) (migrationName : String) (stage : Int) : Except String DB :=
  if db.rows.any (fun r => r.migration = migrationName) then
    .error ("insert migration " ++ migrationName ++ ": unique violation")
  else
    .ok { db with
          rows := db.rows ++ [{ id := db.nextId, migration := migrationName, stage := stage }],
          nextId := db.nextId + 1 }

/-- Driver method `DeleteMigration`: `DELETE FROM lamigrate WHERE
migration = $1`. -/
def DeleteMigration (db : DB) (migrationName : String) : DB :=
  { db with rows := db.rows.filter (fun r => decide (r.migration ≠ migrationName)) }

/-- The state after `BeginTx`: one more transaction has been opened. -/
def beginTx (db : DB) : DB := { db with txCount := db.txCount + 1 }

/-- Driver method `WithTransaction`: begin a transaction, run the unit
of work, commit its state on success, roll the rows and the schema log
back to the pre-transaction state on error (the `BeginTx` call itself is
not undone).  `α` carries values the Go closure writes into captured
locals. -/
def WithTransaction (db : DB) (fn : DB → Except String (DB × α)) : Except String α × DB :=
  match fn (beginTx db) with
  | .ok (d, a) => (.ok a, d)
  | .error e => (.error e, beginTx db)

/-- Go `tx.ExecContext(ctx, sqlText)`: the oracle decides whether the
database accepts the SQL; success appends it to the schema log. -/
def execSQL (oracle : String → Bool) (db : DB) (ctx : String) (sqlText : String) :
    Except String DB :=
  if oracle sqlText then .ok { db with schemaLog := db.schemaLog ++ [sqlText] }
  else .error (ctx ++ ": exec failed")

/-- The filesystem visible to the engine: the migrations directory
listing plus file contents keyed by full path. -/
structure FS where
  listing : List Entry
  contents : List (String × String)

/-- Go `os.ReadFile(path)`, with the error wrapped with the file name as in
`read migration %s: %w`. -/
def readFile (fs : FS) (filename path : String) : Except String String :=
  match fs.contents.lookup path with
  | some c => .ok c
  | none => .error ("read migration " ++ filename)

/-- Go struct `Config` from `config.go`. -/
structure Config where
  MigrationsDir : String
  DriverName : String
  DSN : String
deriving DecidableEq, Repr

/-- One pending migration's slot of `ApplyUp`'s read loop: load the file
and store its trimmed body in `SQL`. -/
def loadBody (fs : FS) (m : Migration) : Except String Migration :=
  match readFile fs m.Filename m.Path with
  | .error e => .error e
  | .ok content => .ok { m with SQL := goTrimSpace content }

/-- The read loop of `ApplyUp` over the pending list: first failing read
aborts before any database mutation. -/
def loadBodies (fs : FS) : List Migration → Except String (List Migration)
  | [] => .ok []
  | m :: rest =>
    match loadBody fs m with
    | .error e => .error e
    | .ok m2 =>
      match loadBodies fs rest with
      | .error e => .error e
      | .ok ms => .ok (m2 :: ms)

/-- One iteration of `ApplyUp`'s transaction body: execute the SQL unless
the body is empty, then record the migration with the computed stage. -/
def upApplyOne (oracle : String → Bool) (stage : Int) (db : DB) (m : Migration) :
    Except String DB :=
  match (if m.SQL ≠ "" then execSQL oracle db ("exec migration " ++ m.Filename) m.SQL
         else .ok db) with
  | .error e => .error e
  | .ok db1 => InsertMigration db1 (Key m) stage

/-- The transaction body of `ApplyUp`: apply each pending migration in order,
aborting at the first failure. -/
def runUpTx (oracle : String → Bool) (stage : Int) : DB → List Migration → Except String DB
  | db, [] => .ok db
  | db, m :: rest =>
    match upApplyOne oracle stage db m with
    | .error e => .error e
    | .ok db2 => runUpTx oracle stage db2 rest

/-- The pending set of `ApplyUp`: up-direction files whose key is absent
from the applied history, in scan order. -/
def pendingOf (migrations : List Migration) (appliedList : List AppliedMigration) :
    List Migration :=
  migrations.filter (fun m =>
    decide (m.Direction = Direction.up) &&
      !(appliedList.any (fun item => decide (item.Migration = Key m))))

/-- Go `func ApplyUp(ctx, cfg, driver) ([]string, error)` from
`scanner.go`: validate the configuration, scan the directory, compute
the pending set, stop with "no changes" when it is empty, otherwise read
the SQL bodies, and apply the batch under one transaction with stage
`MaxStage + 1`. -/
def ApplyUp (cfg : Config) (fs : FS) (oracle : String → Bool) (db : DB) :
    Except String (List String) × DB :=
  if cfg.MigrationsDir = "" then (.error "migrations dir is empty", db)
  else if cfg.DSN = "" then (.error "dsn is empty", db)
  else
    match ScanMigrations cfg.MigrationsDir fs.listing with
    | .error e => (.error e, db)
    | .ok migrations =>
      if (pendingOf migrations (AppliedMigrations db)).length = 0 then (.ok [], db)
      else
        match loadBodies fs (pendingOf migrations (AppliedMigrations db)) with
        | .error e => (.error e, db)
        | .ok loaded =>
          match WithTransaction db (fun d =>
              match runUpTx oracle (MaxStage db + 1) d loaded with
              | .error e => .error e
              | .ok d2 => .ok (d2, ())) with
          | (.ok _, db2) => (.ok (loaded.map (fun m => m.Filename)), db2)
          | (.error e, db2) => (.error e, db2)

/-- The `downByName` index of `ApplyDown`: a map from key to down-file,
built in scan order; a later entry overwrites an earlier one exactly as
a Go map assignment does (lookup finds the most recent). -/
def buildDownIndex (migrations : List Migration) : List (String × Migration) :=
  migrations.foldl
    (fun acc m => if m.Direction = Direction.down then (Key m, m) :: acc else acc) []

/-- The stages `ApplyDown` selects: the first `k` of the distinct stages
in descending order (the clamp `stagesToRollback = len(stages)` makes a
`take` beyond the length harmless). -/
def selectedStages (db : DB) (k : Nat) : List Int := (StagesDesc db).take k

/-- The concatenated rollback list of `ApplyDown`: for each selected
stage, highest first, that stage's keys in reverse insertion order. -/
def rollbackKeys (db : DB) (k : Nat) : List String :=
  (selectedStages db k).flatMap (MigrationsByStage db)

/-- The row view of the rollback list (the same rows whose `migration`
fields `rollbackKeys` returns). -/
def rollbackRows (db : DB) (k : Nat) : List Row :=
  (selectedStages db k).flatMap (rowsOfStageDesc db)

/-- One iteration of `ApplyDown`'s transaction body: resolve the key to
its down file (absence is fatal), read and trim the body, skip execution
when it is empty, then delete the history record and append the filename
to the executed list. -/
def downApplyOne (oracle : String → Bool) (fs : FS) (idx : List (String × Migration))
    (st : DB × List String) (name : String) : Except String (DB × List String) :=
  match idx.lookup name with
  | none => .error ("missing down migration for " ++ name)
  | some migration =>
    match readFile fs migration.Filename migration.Path with
    | .error e => .error e
    | .ok content =>
      if goTrimSpace content = "" then
        .ok (DeleteMigration st.1 name, st.2 ++ [migration.Filename])
      else
        match execSQL oracle st.1 ("exec migration " ++ migration.Filename)
            (goTrimSpace content) with
        | .error e => .error e
        | .ok db2 => .ok (DeleteMigration db2 name, st.2 ++ [migration.Filename])

/-- The transaction body of `ApplyDown` over the whole rollback list. -/
def runDownTx (oracle : String → Bool) (fs : FS) (idx : List (String × Migration)) :
    DB × List String → List String → Except String (DB × List String)
  | st, [] => .ok st
  | st, name :: rest =>
    match downApplyOne oracle fs idx st name with
    | .error e => .error e
    | .ok st2 => runDownTx oracle fs idx st2 rest

/-- Go `func ApplyDown(ctx, cfg, driver, stagesToRollback) ([]string, error)`
from `scanner.go`: validate, scan, index the down files, clamp the
requested stage count, build the rollback list, and undo it under one
transaction. -/
def ApplyDown (cfg : Config) (fs : FS) (oracle : String → Bool) (db : DB)
    (stagesToRollback : Int) : Except String (List String) × DB :=
  if stagesToRollback ≤ 0 then (.error "stages to rollback must be positive", db)
  else if cfg.MigrationsDir = "" then (.error "migrations dir is empty", db)
  else if cfg.DSN = "" then (.error "dsn is empty", db)
  else
    match ScanMigrations cfg.MigrationsDir fs.listing with
    | .error e => (.error e, db)
    | .ok migrations =>
      if (StagesDesc db).length = 0 then (.ok [], db)
      else
        if (rollbackKeys db stagesToRollback.toNat).length = 0 then (.ok [], db)
        else
          match WithTransaction db (fun d =>
              runDownTx oracle fs (buildDownIndex migrations) (d, [])
                (rollbackKeys db stagesToRollback.toNat)) with
          | (.ok executed, db2) => (.ok executed, db2)
          | (.error e, db2) => (.error e, db2)

/-- Go `func ListApplied(ctx, cfg, driver) ([]AppliedMigration, error)` from
`scanner.go`: only the DSN is validated, the directory is never scanned,
and the database is only read (`EnsureSchema` is idempotent and a no-op
on an existing table). -/
def ListApplied (cfg : Config) (db : DB) : Except String (List AppliedMigration) × DB :=
  if cfg.DSN = "" then (.error "dsn is empty", db)
  else (.ok (AppliedMigrations db), db)

/-- The rows a successful `ApplyUp` transaction appends: consecutive ids
from `n`, one common stage, the given keys in order. -/
def mkRows (n : Nat) (stage : Int) : List String → List Row
  | [] => []
  | k :: ks => { id := n, migration := k, stage := stage } :: mkRows (n + 1) stage ks

/-- The order in which `ApplyDown` undoes rows: strictly higher stage
first, and inside one stage strictly larger id (later insertion)
first. -/
def rbOrder (a b : Row) : Prop :=
  b.stage < a.stage ∨ (a.stage = b.stage ∧ b.id < a.id)

/-- An oracle accepting every SQL body. -/
def exOra : String → Bool := fun _ => true

/-- An oracle rejecting exactly the body of the second example pair. -/
def exOraFail : String → Bool := fun sqlText => !(sqlText == "CREATE TABLE u")

/-- An empty bookkeeping table. -/
def exDb0 : DB := { rows := [], nextId := 1, schemaLog := [], txCount := 0 }

/-- An example configuration. -/
def exCfg : Config :=
  { MigrationsDir := "migrations", DriverName := "postgres", DSN := "postgres://db" }

/-- The same configuration with an empty migrations directory. -/
def exCfgNoDir : Config :=
  { MigrationsDir := "", DriverName := "postgres", DSN := "postgres://db" }

/-- A listing with one migration pair and one unrelated file. -/
def exEntriesA : List Entry :=
  [{ name := "20250101000000_init.down.sql", isDir := false },
   { name := "20250101000000_init.up.sql", isDir := false },
   { name := "README.md", isDir := false }]

/-- A listing whose only match has a white-space-only name. -/
def exEntriesBad : List Entry := [{ name := "20250101000000_ .up.sql", isDir := false }]

/-- The filesystem with the `init` pair. -/
def exFsA : FS :=
  { listing := exEntriesA,
    contents := [("migrations/20250101000000_init.up.sql", "CREATE TABLE t"),
                 ("migrations/20250101000000_init.down.sql", "DROP TABLE t")] }

/-- The filesystem with the `init` pair and a later `second` pair. -/
def exFsAB : FS :=
  { listing := { name := "20250102000000_second.down.sql", isDir := false } ::
               { name := "20250102000000_second.up.sql", isDir := false } :: exEntriesA,
    contents := ("migrations/20250102000000_second.up.sql", "CREATE TABLE u") ::
                ("migrations/20250102000000_second.down.sql", "DROP TABLE u") ::
                exFsA.contents }

/-- A no-op up migration with an empty body. -/
def exEmptyUp : Migration :=
  { Version := "20250103000000", Name := "noop", Direction := Direction.up,
    Filename := "20250103000000_noop.up.sql",
    Path := "migrations/20250103000000_noop.up.sql", SQL := "" }

/-- The paired no-op down migration. -/
def exEmptyDown : Migration :=
  { Version := "20250103000000", Name := "noop", Direction := Direction.down,
    Filename := "20250103000000_noop.down.sql",
    Path := "migrations/20250103000000_noop.down.sql", SQL := "" }

/-- A filesystem whose down file holds only white space. -/
def exFsEmpty : FS :=
  { listing := [{ name := "20250103000000_noop.down.sql", isDir := false }],
    contents := [("migrations/20250103000000_noop.down.sql", "  ")] }

/-- A unit of work that succeeds and returns its transaction state. -/
def exFnOk : DB → Except String (DB × Nat) := fun d => .ok (d, 7)

/-- A bookkeeping table with two applied stages. -/
def exDb2 : DB :=
  { rows := [{ id := 1, migration := "20250101000000_init", stage := 1 },
             { id := 2, migration := "20250102000000_second", stage := 2 }],
    nextId := 3, schemaLog := ["CREATE TABLE t", "CREATE TABLE u"], txCount := 2 }

/-- The state after the first example run: `init` applied at stage 1. -/
def exDb1 : DB :=
  { rows := [{ id := 1, migration := "20250101000000_init", stage := 1 }],
    nextId := 2, schemaLog := ["CREATE TABLE t"], txCount := 1 }

/-- A filesystem whose `init` down file has been deleted: only the up
file remains on disk. -/
def exFsUpOnly : FS :=
  { listing := [{ name := "20250101000000_init.up.sql", isDir := false }],
    contents := [("migrations/20250101000000_init.up.sql", "CREATE TABLE t")] }

/-- What `ScanMigrations` returns on `exFsUpOnly`. -/
def exScanUpOnly : List Migration :=
  [{ Version := "20250101000000", Name := "init", Direction := Direction.up,
     Filename := "20250101000000_init.up.sql",
     Path := "migrations/20250101000000_init.up.sql", SQL := "" }]

/-- What `ScanMigrations` returns on `exEntriesA`. -/
def exScanA : List Migration :=
  [{ Version := "20250101000000", Name := "init", Direction := Direction.down,
     Filename := "20250101000000_init.down.sql",
     Path := "migrations/20250101000000_init.down.sql", SQL := "" },
   { Version := "20250101000000", Name := "init", Direction := Direction.up,
     Filename := "20250101000000_init.up.sql",
     Path := "migrations/20250101000000_init.up.sql", SQL := "" }]

/-- Decidable equality on `Except`, so concrete runs of the engine can be
checked by `decide`. -/
instance exceptDecEq {ε α : Type} [DecidableEq ε] [DecidableEq α] :
    DecidableEq (Except ε α) := fun x y =>
  match x, y with
  | .ok a, .ok b =>
    if h : a = b then .isTrue (by rw [h]) else .isFalse (by intro hc; cases hc; exact h rfl)
  | .ok _, .error _ => .isFalse (by intro hc; cases hc)
  | .error _, .ok _ => .isFalse (by intro hc; cases hc)
  | .error e, .error f =>
    if h : e = f then .isTrue (by rw [h]) else .isFalse (by intro hc; cases hc; exact h rfl)

/-- Whether an `Except` value is an error (Go: `err != nil`). -/
def isErrB : Except String α → Bool
  | .error _ => true
  | .ok _ => false

/-- What `ScanMigrations` keeps of one directory entry: `none` for
directories and non-matching names, otherwise the parsed migration with
its name trimmed. -/
def parseEntry (dir : String) (e : Entry) : Option Migration :=
  if e.isDir then none
  else
    match matchMigration e.name with
    | none => none
    | some (version, rawName, direction) =>
      some { Version := version, Name := goTrimSpace rawName, Direction := direction,
             Filename := e.name, Path := joinPath dir e.name, SQL := "" }

/-- A directory entry on which `ScanMigrations` fails: a regular file
matching the migration pattern whose captured name consists only of
white space (so it trims to empty). -/
def wsOnlyName (e : Entry) : Bool :=
  !e.isDir &&
    (match matchMigration e.name with
     | some (_, n, _) => n.data.all goIsSpace
     | none => false)

lemma str_eq_of_data {a b : String} (h : a.data = b.data) : a = b :=
  String.ext h

lemma charsLT_cons_iff {a b : Char} {as bs : List Char} :
    charsLT (a :: as) (b :: bs) = true ↔ (a < b ∨ (a = b ∧ charsLT as bs = true)) := by
  simp only [charsLT]
  by_cases hab : a < b
  · simp [hab]
  · by_cases hba : b < a
    · have : a ≠ b := fun h => by subst h; exact hba.false
      simp [hab, hba, this]
    · have : a = b := le_antisymm (not_lt.mp hba) (not_lt.mp hab)
      simp [hab, hba, this]

lemma charsLT_trans : ∀ {a b c : List Char},
    charsLT a b = true → charsLT b c = true → charsLT a c = true := by
  intro a
  induction a with
  | nil =>
    intro b c hab hbc
    cases b with
    | nil => simp [charsLT] at hab
    | cons y ys =>
      cases c with
      | nil => simp [charsLT] at hbc
      | cons z zs => simp [charsLT]
  | cons x xs ih =>
    intro b c hab hbc
    cases b with
    | nil => simp [charsLT] at hab
    | cons y ys =>
      cases c with
      | nil => simp [charsLT] at hbc
      | cons z zs =>
        rcases charsLT_cons_iff.mp hab with hxy | ⟨hxy, htail⟩ <;>
          rcases charsLT_cons_iff.mp hbc with hyz | ⟨hyz, htail2⟩
        · exact charsLT_cons_iff.mpr (Or.inl (lt_trans hxy hyz))
        · exact charsLT_cons_iff.mpr (Or.inl (hyz ▸ hxy))
        · exact charsLT_cons_iff.mpr (Or.inl (hxy ▸ hyz))
        · exact charsLT_cons_iff.mpr (Or.inr ⟨hxy.trans hyz, ih htail htail2⟩)

lemma charsLT_tri : ∀ (a b : List Char),
    charsLT a b = true ∨ charsLT b a = true ∨ a = b := by
  intro a
  induction a with
  | nil =>
    intro b
    cases b with
    | nil => right; right; rfl
    | cons y ys => left; simp [charsLT]
  | cons x xs ih =>
    intro b
    cases b with
    | nil => right; left; simp [charsLT]
    | cons y ys =>
      rcases lt_trichotomy x y with hxy | hxy | hxy
      · exact Or.inl (charsLT_cons_iff.mpr (Or.inl hxy))
      · rcases ih ys with h | h | h
        · exact Or.inl (charsLT_cons_iff.mpr (Or.inr ⟨hxy, h⟩))
        · exact Or.inr (Or.inl (charsLT_cons_iff.mpr (Or.inr ⟨hxy.symm, h⟩)))
        · exact Or.inr (Or.inr (by rw [hxy, h]))
      · exact Or.inr (Or.inl (charsLT_cons_iff.mpr (Or.inl hxy)))

lemma strLt_trans {a b c : String} (h1 : strLt a b) (h2 : strLt b c) : strLt a c :=
  charsLT_trans h1 h2

lemma strLt_tri (a b : String) : strLt a b ∨ strLt b a ∨ a = b := by
  rcases charsLT_tri a.data b.data with h | h | h
  · exact Or.inl h
  · exact Or.inr (Or.inl h)
  · exact Or.inr (Or.inr (str_eq_of_data h))

lemma dirLE_total (a b : Direction) : dirLE a b = true ∨ dirLE b a = true := by
  cases a <;> cases b <;> simp [dirLE]

lemma dirLE_trans {a b c : Direction} (h1 : dirLE a b = true) (h2 : dirLE b c = true) :
    dirLE a c = true := by
  cases a <;> cases b <;> cases c <;> simp_all [dirLE]

instance : IsTotal Migration migR := by
  constructor
  intro a b
  unfold migR
  rcases strLt_tri a.Version b.Version with h | h | h
  · exact Or.inl (Or.inl h)
  · exact Or.inr (Or.inl h)
  · rcases strLt_tri a.Name b.Name with h2 | h2 | h2
    · exact Or.inl (Or.inr ⟨h, Or.inl h2⟩)
    · exact Or.inr (Or.inr ⟨h.symm, Or.inl h2⟩)
    · rcases dirLE_total a.Direction b.Direction with h3 | h3
      · exact Or.inl (Or.inr ⟨h, Or.inr ⟨h2, h3⟩⟩)
      · exact Or.inr (Or.inr ⟨h.symm, Or.inr ⟨h2.symm, h3⟩⟩)

instance : IsTrans Migration migR := by
  constructor
  intro a b c hab hbc
  unfold migR at *
  rcases hab with hv | ⟨hv, hn⟩ <;> rcases hbc with hv2 | ⟨hv2, hn2⟩
  · exact Or.inl (strLt_trans hv hv2)
  · exact Or.inl (hv2 ▸ hv)
  · exact Or.inl (hv ▸ hv2)
  · refine Or.inr ⟨hv.trans hv2, ?_⟩
    rcases hn with h | ⟨hn, hd⟩ <;> rcases hn2 with h2 | ⟨hn2, hd2⟩
    · exact Or.inl (strLt_trans h h2)
    · exact Or.inl (hn2 ▸ h)
    · exact Or.inl (hn ▸ h2)
    · exact Or.inr ⟨hn.trans hn2, dirLE_trans hd hd2⟩

instance : IsTotal Row rowR := by
  constructor
  intro a b
  unfold rowR
  omega

instance : IsTrans Row rowR := by
  constructor
  intro a b c hab hbc
  unfold rowR at *
  omega

instance : IsTotal Row idDescR := by
  constructor
  intro a b
  unfold idDescR
  omega

instance : IsTrans Row idDescR := by
  constructor
  intro a b c hab hbc
  unfold idDescR at *
  omega

instance : IsTotal Int intDescR := by
  constructor
  intro a b
  unfold intDescR
  omega

instance : IsTrans Int intDescR := by
  constructor
  intro a b c hab hbc
  unfold intDescR at *
  omega

lemma dropWhile_all {p : Char → Bool} {l : List Char}
    (h : ∀ x ∈ l.dropWhile p, p x = true) : ∀ x ∈ l, p x = true := by
  intro x hx
  rw [← @List.takeWhile_append_dropWhile _ p l] at hx
  rcases List.mem_append.mp hx with h1 | h2
  · exact List.mem_takeWhile_imp h1
  · exact h x h2

/-- Trimming yields the empty string exactly when every character is
white space. -/
lemma trimSpace_empty_iff (s : String) :
    goTrimSpace s = "" ↔ s.data.all goIsSpace = true := by
  have hdata : goTrimSpace s = "" ↔
      (((s.data.dropWhile goIsSpace).reverse.dropWhile goIsSpace).reverse = []) := by
    constructor
    · intro h
      have := congrArg String.data h
      simpa [goTrimSpace] using this
    · intro h
      apply str_eq_of_data
      simpa [goTrimSpace] using h
  rw [hdata, List.reverse_eq_nil_iff, List.dropWhile_eq_nil_iff, List.all_eq_true]
  constructor
  · intro h
    refine dropWhile_all (fun x hx => ?_)
    have : x ∈ (s.data.dropWhile goIsSpace).reverse := List.mem_reverse.mpr hx
    exact h x this
  · intro h x hx
    exact h x ((List.dropWhile_sublist _).subset (List.mem_reverse.mp hx))

/-- A successful match of the migration pattern captures a non-empty
name (the `.+` group needs at least one character). -/
lemma matchMigration_name_ne {fn v n : String} {d : Direction}
    (h : matchMigration fn = some (v, n, d)) : n.data ≠ [] := by
  simp only [matchMigration] at h
  split at h
  · split at h
    · split at h
      · split at h
        · rename_i nameChars hchop hlen
          simp only [Option.some.injEq, Prod.mk.injEq] at h
          obtain ⟨-, hn, -⟩ := h
          obtain ⟨hlen1, -⟩ := Bool.and_eq_true .. ▸ hlen
          subst hn
          intro hc
          have hnil : nameChars = [] := hc
          subst hnil
          simp at hlen1
        · exact absurd h (by simp)
      · split at h
        · split at h
          · rename_i nameChars hchop hlen
            simp only [Option.some.injEq, Prod.mk.injEq] at h
            obtain ⟨-, hn, -⟩ := h
            obtain ⟨hlen1, -⟩ := Bool.and_eq_true .. ▸ hlen
            subst hn
            intro hc
            have hnil : nameChars = [] := hc
            subst hnil
            simp at hlen1
          · exact absurd h (by simp)
        · exact absurd h (by simp)
    · exact absurd h (by simp)
  · exact absurd h (by simp)

/-- When the scan loop succeeds it has collected exactly the parses of
the matching regular files, in listing order. -/
lemma scanLoop_ok {dir : String} :
    ∀ {entries : List Entry} {ms : List Migration},
      scanLoop dir entries = .ok ms → ms = entries.filterMap (parseEntry dir) := by
  intro entries
  induction entries with
  | nil =>
    intro ms h
    simp only [scanLoop, Except.ok.injEq] at h
    simp [← h]
  | cons e rest ih =>
    intro ms h
    by_cases hd : e.isDir
    · simp only [scanLoop, hd, if_true] at h
      rw [List.filterMap_cons, parseEntry, if_pos hd]
      exact ih h
    · rcases hm : matchMigration e.name with - | ⟨v, rn, d⟩
      · simp only [scanLoop, hd, if_false, hm] at h
        rw [List.filterMap_cons, parseEntry, if_neg hd, hm]
        exact ih h
      · by_cases hnm : goTrimSpace rn = ""
        · simp [scanLoop, hd, hm, hnm] at h
        · simp only [scanLoop, hd, if_false, hm, hnm] at h
          rcases hs : scanLoop dir rest with e2 | ms2
          · rw [hs] at h
            simp at h
          · rw [hs] at h
            simp at h
            rw [List.filterMap_cons, parseEntry, if_neg hd, hm]
            simp only [Option.some.injEq]
            rw [← h, ih hs]

/-- The scan loop fails exactly when some entry has a white-space-only
captured name. -/
lemma scanLoop_err (dir : String) :
    ∀ entries : List Entry, isErrB (scanLoop dir entries) = entries.any wsOnlyName := by
  intro entries
  induction entries with
  | nil => simp [scanLoop, isErrB]
  | cons e rest ih =>
    by_cases hd : e.isDir
    · simp only [scanLoop, hd, if_true, List.any_cons, wsOnlyName]
      simp [ih]
    · rcases hm : matchMigration e.name with - | ⟨v, rn, d⟩
      · simp only [scanLoop, hd, if_false, hm, List.any_cons, wsOnlyName]
        simp [hm, ih]
      · by_cases hnm : goTrimSpace rn = ""
        · simp only [scanLoop, hd, if_false, hm, hnm, if_true, List.any_cons, wsOnlyName]
          simp [hm, isErrB, (trimSpace_empty_iff rn).mp hnm]
        · simp only [scanLoop, hd, if_false, hm, hnm, if_false, List.any_cons, wsOnlyName]
          have hrn : rn.data.all goIsSpace = false := by
            rcases hall : rn.data.all goIsSpace
            · rfl
            · exact absurd ((trimSpace_empty_iff rn).mpr hall) hnm
          rcases hs : scanLoop dir rest with e2 | ms2
          · rw [hs] at ih
            simp [hm, hrn, isErrB, ← ih]
          · rw [hs] at ih
            simp [hm, hrn, isErrB, ← ih]

/-- A helper: `ScanMigrations` is an error exactly when its loop is (the
final sort cannot fail). -/
lemma isErrB_scanMigrations (dir : String) (entries : List Entry) :
    isErrB (ScanMigrations dir entries) = isErrB (scanLoop dir entries) := by
  unfold ScanMigrations
  rcases scanLoop dir entries <;> rfl

/-- C8: on success, `ScanMigrations` returns exactly the parses of the
directory's pattern-matching regular files (every other file silently
ignored), sorted by the total order version-then-name-then-direction,
where `down` precedes `up`; the output is a function of the listing
alone, hence deterministic. -/
theorem scanMigrations_exact_sorted (dir : String) (entries : List Entry)
    (l : List Migration) (h : ScanMigrations dir entries = .ok l) :
    l.Perm (entries.filterMap (parseEntry dir)) ∧ l.Sorted migR := by
  unfold ScanMigrations at h
  rcases hs : scanLoop dir entries with e | ms
  · rw [hs] at h; cases h
  · rw [hs] at h
    simp only [Except.ok.injEq] at h
    subst h
    refine ⟨?_, List.sorted_insertionSort migR ms⟩
    have h1 : (ms.insertionSort migR).Perm ms := List.perm_insertionSort migR ms
    have h3 : ms.Perm (entries.filterMap (parseEntry dir)) := by
      rw [scanLoop_ok hs]
    exact h1.trans h3

/-- Witness for C8 at a concrete listing with a pair and a `README.md`. -/
theorem scanMigrations_exact_sorted_witness :
    ScanMigrations "migrations" exEntriesA = .ok exScanA ∧
    (exScanA.Perm (exEntriesA.filterMap (parseEntry "migrations")) ∧
      exScanA.Sorted migR) :=
  ⟨by decide, scanMigrations_exact_sorted "migrations" exEntriesA exScanA (by decide)⟩

/-- C9: `ScanMigrations` fails exactly when some listed regular file
matches the migration pattern with a captured name made only of white
space; moreover the pattern guarantees a non-empty captured name, and a
name trims to empty precisely when it is all white space. -/
theorem scanMigrations_error_iff :
    (∀ (dir : String) (entries : List Entry),
        isErrB (ScanMigrations dir entries) = entries.any wsOnlyName) ∧
    (∀ (fn v n : String) (d : Direction), matchMigration fn = some (v, n, d) →
        n.data ≠ [] ∧ (goTrimSpace n = "" ↔ n.data.all goIsSpace = true)) := by
  constructor
  · intro dir entries
    rw [isErrB_scanMigrations, scanLoop_err]
  · intro fn v n d h
    exact ⟨matchMigration_name_ne h, trimSpace_empty_iff n⟩

/-- Witness for C9: the white-space name `20250101000000_ .up.sql` is a
fatal error, and a concrete successful match has a non-empty name. -/
theorem scanMigrations_error_iff_witness :
    isErrB (ScanMigrations "migrations" exEntriesBad) = exEntriesBad.any wsOnlyName ∧
    isErrB (ScanMigrations "migrations" exEntriesBad) = true ∧
    (("init" : String).data ≠ [] ∧
      (goTrimSpace "init" = "" ↔ ("init" : String).data.all goIsSpace = true)) :=
  ⟨scanMigrations_error_iff.1 "migrations" exEntriesBad, by decide,
   scanMigrations_error_iff.2 "20250101000000_init.up.sql" "20250101000000" "init"
     Direction.up (by decide)⟩

/-- When the unit of work fails, `WithTransaction` leaves the state it
returns equal to the pre-transaction state (plus the `BeginTx` count). -/
lemma withTransaction_error_eq {α : Type} {db db2 : DB}
    {fn : DB → Except String (DB × α)} {e : String}
    (h : WithTransaction db fn = (.error e, db2)) : db2 = beginTx db := by
  unfold WithTransaction at h
  rcases hfn : fn (beginTx db) with e2 | da
  · rw [hfn] at h
    exact (Prod.mk.injEq .. ▸ h).2.symm
  · rw [hfn] at h
    obtain ⟨d, a⟩ := da
    exact absurd (Prod.mk.injEq .. ▸ h).1 (by simp)

/-- When the unit of work succeeds, `WithTransaction` commits its state
and returns its value. -/
lemma withTransaction_ok {α : Type} {db d : DB} {a : α}
    {fn : DB → Except String (DB × α)}
    (h : fn (beginTx db) = .ok (d, a)) : WithTransaction db fn = (.ok a, d) := by
  unfold WithTransaction
  rw [h]

/-- C1: whenever `ApplyUp` reports an error — in particular when some
migration's SQL or history insert inside the batch fails — the caller
sees the error and the database keeps its pre-call history rows and
schema effects (full rollback, nothing of the batch recorded); and when
the supplied unit of work succeeds, `WithTransaction` commits its
state. -/
theorem applyUp_transaction_atomic (cfg : Config) (fs : FS) (oracle : String → Bool)
    (db : DB) :
    (∀ e : String, (ApplyUp cfg fs oracle db).1 = .error e →
        (ApplyUp cfg fs oracle db).2.rows = db.rows ∧
        (ApplyUp cfg fs oracle db).2.schemaLog = db.schemaLog) ∧
    (∀ (α : Type) (fn : DB → Except String (DB × α)) (d : DB) (a : α),
        fn (beginTx db) = .ok (d, a) → WithTransaction db fn = (.ok a, d)) := by
  constructor
  · unfold ApplyUp
    split
    · intro e h
      exact ⟨rfl, rfl⟩
    · split
      · intro e h
        exact ⟨rfl, rfl⟩
      · split
        · intro e h
          exact ⟨rfl, rfl⟩
        · split
          · intro e h
            exact ⟨rfl, rfl⟩
          · split
            · intro e h
              exact ⟨rfl, rfl⟩
            · split
              · rename_i hw
                intro e h
                simp at h
              · rename_i hw
                intro e h
                rw [withTransaction_error_eq hw]
                exact ⟨rfl, rfl⟩
  · intro α fn d a h
    exact withTransaction_ok h

/-- Witness for C1: with two pending pairs and an oracle rejecting the
second body, `ApplyUp` fails on the second migration of the batch and
the table stays empty; a successful unit of work commits. -/
theorem applyUp_transaction_atomic_witness :
    ((ApplyUp exCfg exFsAB exOraFail exDb0).1 =
        .error "exec migration 20250102000000_second.up.sql: exec failed") ∧
    ((ApplyUp exCfg exFsAB exOraFail exDb0).2.rows = exDb0.rows ∧
     (ApplyUp exCfg exFsAB exOraFail exDb0).2.schemaLog = exDb0.schemaLog) ∧
    (exFnOk (beginTx exDb0) = .ok (beginTx exDb0, 7) ∧
     WithTransaction exDb0 exFnOk = (.ok 7, beginTx exDb0)) :=
  ⟨by decide,
   (applyUp_transaction_atomic exCfg exFsAB exOraFail exDb0).1
     "exec migration 20250102000000_second.up.sql: exec failed" (by decide),
   by decide,
   (applyUp_transaction_atomic exCfg exFsAB exOraFail exDb0).2
     Nat exFnOk (beginTx exDb0) 7 (by decide)⟩

/-- C3: a selected migration whose body trims to empty is not executed
but still mutates history — the up path reduces to exactly the history
insert with the computed stage, and the down path succeeds with exactly
the history delete; neither path errors on the empty body. -/
theorem emptyBody_skips_exec_mutates_history :
    (∀ (oracle : String → Bool) (stage : Int) (db : DB) (m : Migration), m.SQL = "" →
        upApplyOne oracle stage db m = InsertMigration db (Key m) stage) ∧
    (∀ (oracle : String → Bool) (fs : FS) (idx : List (String × Migration))
        (st : DB × List String) (name content : String) (m : Migration),
        idx.lookup name = some m →
        readFile fs m.Filename m.Path = .ok content →
        goTrimSpace content = "" →
        downApplyOne oracle fs idx st name =
          .ok (DeleteMigration st.1 name, st.2 ++ [m.Filename])) := by
  constructor
  · intro oracle stage db m h
    unfold upApplyOne
    rw [h]
    simp
  · intro oracle fs idx st name content m hlook hread htrim
    simp [downApplyOne, hlook, hread, htrim]

/-- Witness for C3 on a concrete no-op pair: empty up body inserts, a
white-space down body deletes. -/
theorem emptyBody_skips_exec_mutates_history_witness :
    (exEmptyUp.SQL = "" ∧
      upApplyOne exOra 1 exDb0 exEmptyUp = InsertMigration exDb0 (Key exEmptyUp) 1) ∧
    (List.lookup "20250103000000_noop" [("20250103000000_noop", exEmptyDown)] =
        some exEmptyDown ∧
      readFile exFsEmpty exEmptyDown.Filename exEmptyDown.Path = .ok "  " ∧
      goTrimSpace "  " = "" ∧
      downApplyOne exOra exFsEmpty [("20250103000000_noop", exEmptyDown)]
          (exDb2, []) "20250103000000_noop" =
        .ok (DeleteMigration exDb2 "20250103000000_noop", [exEmptyDown.Filename])) :=
  ⟨⟨by decide,
    emptyBody_skips_exec_mutates_history.1 exOra 1 exDb0 exEmptyUp (by decide)⟩,
   by decide, by decide, by decide,
   emptyBody_skips_exec_mutates_history.2 exOra exFsEmpty
     [("20250103000000_noop", exEmptyDown)] (exDb2, []) "20250103000000_noop" "  "
     exEmptyDown (by decide) (by decide) (by decide)⟩

/-- C7: a non-positive requested stage count is rejected up front with
the state untouched; for a positive count the selected stages number
exactly `min(count, stages present)`; and any two counts at least the
number of available stages make `ApplyDown` behave identically (asking
for more than exists degrades to rolling back everything, not an
error). -/
theorem applyDown_clamps_stage_count (cfg : Config) (fs : FS) (oracle : String → Bool)
    (db : DB) (k : Int) :
    (k ≤ 0 → ApplyDown cfg fs oracle db k =
        (.error "stages to rollback must be positive", db)) ∧
    ((selectedStages db k.toNat).length = min k.toNat (StagesDesc db).length) ∧
    (1 ≤ k → (StagesDesc db).length ≤ k.toNat →
      ∀ k2 : Int, 1 ≤ k2 → (StagesDesc db).length ≤ k2.toNat →
        ApplyDown cfg fs oracle db k = ApplyDown cfg fs oracle db k2) := by
  refine ⟨?_, ?_, ?_⟩
  · intro h
    unfold ApplyDown
    rw [if_pos h]
  · unfold selectedStages
    simp [List.length_take]
  · intro h1 h2 k2 h3 h4
    have hkeys : rollbackKeys db k.toNat = rollbackKeys db k2.toNat := by
      unfold rollbackKeys selectedStages
      rw [List.take_of_length_le h2, List.take_of_length_le h4]
    unfold ApplyDown
    rw [if_neg (show ¬k ≤ 0 by omega), if_neg (show ¬k2 ≤ 0 by omega), hkeys]

/-- Witness for C7 on a two-stage table: count `-1` is rejected, count
`5` selects `min 5 2 = 2` stages and behaves like count `2`. -/
theorem applyDown_clamps_stage_count_witness :
    ((-1 : Int) ≤ 0 ∧
      ApplyDown exCfg exFsAB exOra exDb2 (-1) =
        (.error "stages to rollback must be positive", exDb2)) ∧
    ((selectedStages exDb2 (5 : Int).toNat).length =
        min (5 : Int).toNat (StagesDesc exDb2).length) ∧
    ((1 : Int) ≤ 5 ∧ (StagesDesc exDb2).length ≤ (5 : Int).toNat ∧
      (1 : Int) ≤ 2 ∧ (StagesDesc exDb2).length ≤ (2 : Int).toNat ∧
      ApplyDown exCfg exFsAB exOra exDb2 5 = ApplyDown exCfg exFsAB exOra exDb2 2) :=
  ⟨⟨by decide,
    (applyDown_clamps_stage_count exCfg exFsAB exOra exDb2 (-1)).1 (by decide)⟩,
   (applyDown_clamps_stage_count exCfg exFsAB exOra exDb2 5).2.1,
   by decide, by decide, by decide, by decide,
   (applyDown_clamps_stage_count exCfg exFsAB exOra exDb2 5).2.2 (by decide) (by decide)
     2 (by decide) (by decide)⟩

/-- C10: with a non-empty DSN, `ListApplied` succeeds regardless of the
migrations directory — it never scans, performs no history mutation and
returns the history unchanged along with an unchanged state — whereas
`ApplyUp` and `ApplyDown` reject an empty `MigrationsDir` before any
database contact. -/
theorem listApplied_requires_only_dsn (cfg : Config) (db : DB) (fs : FS)
    (oracle : String → Bool) (hdsn : cfg.DSN ≠ "") (hdir : cfg.MigrationsDir = "") :
    ListApplied cfg db = (.ok (AppliedMigrations db), db) ∧
    ApplyUp cfg fs oracle db = (.error "migrations dir is empty", db) ∧
    (∀ k : Int, 1 ≤ k →
      ApplyDown cfg fs oracle db k = (.error "migrations dir is empty", db)) := by
  refine ⟨?_, ?_, ?_⟩
  · unfold ListApplied
    rw [if_neg hdsn]
  · unfold ApplyUp
    rw [if_pos hdir]
  · intro k hk
    unfold ApplyDown
    rw [if_neg (by omega), if_pos hdir]

/-- Witness for C10: an empty directory with a live DSN lists history
but rejects up and down. -/
theorem listApplied_requires_only_dsn_witness :
    (exCfgNoDir.DSN ≠ "" ∧ exCfgNoDir.MigrationsDir = "") ∧
    ListApplied exCfgNoDir exDb2 = (.ok (AppliedMigrations exDb2), exDb2) ∧
    ApplyUp exCfgNoDir exFsA exOra exDb2 = (.error "migrations dir is empty", exDb2) ∧
    ApplyDown exCfgNoDir exFsA exOra exDb2 1 = (.error "migrations dir is empty", exDb2) :=
  ⟨⟨by decide, by decide⟩,
   (listApplied_requires_only_dsn exCfgNoDir exDb2 exFsA exOra (by decide) (by decide)).1,
   (listApplied_requires_only_dsn exCfgNoDir exDb2 exFsA exOra (by decide) (by decide)).2.1,
   (listApplied_requires_only_dsn exCfgNoDir exDb2 exFsA exOra (by decide) (by decide)).2.2
     1 (by decide)⟩

/-- A successful `upApplyOne` appends exactly one history row with the
next id and the given stage (SQL execution touches only the schema
log). -/
lemma upApplyOne_ok {oracle : String → Bool} {stage : Int} {db db1 : DB} {m : Migration}
    (h : upApplyOne oracle stage db m = .ok db1) :
    db1.rows = db.rows ++ [{ id := db.nextId, migration := Key m, stage := stage }] ∧
    db1.nextId = db.nextId + 1 ∧ db1.txCount = db.txCount := by
  unfold upApplyOne at h
  split at h
  · cases h
  · rename_i db0 hq
    have hdb0 : db0.rows = db.rows ∧ db0.nextId = db.nextId ∧ db0.txCount = db.txCount := by
      by_cases hsql : m.SQL ≠ ""
      · rw [if_pos hsql] at hq
        unfold execSQL at hq
        by_cases ho : oracle m.SQL = true
        · rw [if_pos ho] at hq
          injection hq with hq
          rw [← hq]
          exact ⟨rfl, rfl, rfl⟩
        · rw [if_neg ho] at hq
          cases hq
      · rw [if_neg hsql] at hq
        injection hq with hq
        rw [← hq]
        exact ⟨rfl, rfl, rfl⟩
    unfold InsertMigration at h
    split at h
    · cases h
    · injection h with h
      rw [← h]
      obtain ⟨h1, h2, h3⟩ := hdb0
      exact ⟨by rw [h1, h2], by rw [h2], h3⟩

/-- A successful `runUpTx` appends exactly the batch's rows: consecutive
ids, the single given stage, the keys in order. -/
lemma runUpTx_ok {oracle : String → Bool} {stage : Int} :
    ∀ {l : List Migration} {db d : DB}, runUpTx oracle stage db l = .ok d →
      d.rows = db.rows ++ mkRows db.nextId stage (l.map Key) ∧
      d.nextId = db.nextId + l.length ∧ d.txCount = db.txCount := by
  intro l
  induction l with
  | nil =>
    intro db d h
    unfold runUpTx at h
    injection h with h
    rw [← h]
    simp [mkRows]
  | cons m rest ih =>
    intro db d h
    unfold runUpTx at h
    split at h
    · cases h
    · rename_i db2 h1
      obtain ⟨hr, hn, ht⟩ := upApplyOne_ok h1
      obtain ⟨hr2, hn2, ht2⟩ := ih h
      refine ⟨?_, by simp only [hn2, hn, List.length_cons]; omega, by rw [ht2, ht]⟩
      rw [hr2, hr, hn, List.map_cons]
      show db.rows ++ [{ id := db.nextId, migration := Key m, stage := stage }] ++
          mkRows (db.nextId + 1) stage (rest.map Key) =
        db.rows ++ mkRows db.nextId stage (Key m :: rest.map Key)
      rw [List.append_assoc, List.singleton_append, mkRows]

/-- The keys recorded by `mkRows` are exactly the given keys. -/
lemma mkRows_migrations (stage : Int) :
    ∀ (ks : List String) (n : Nat),
      (mkRows n stage ks).map (fun r => r.migration) = ks := by
  intro ks
  induction ks with
  | nil => intro n; rfl
  | cons k t ih => intro n; simp [mkRows, ih]

/-- Every row `mkRows` builds carries the given stage. -/
lemma mkRows_stage (stage : Int) :
    ∀ (ks : List String) (n : Nat) (r : Row), r ∈ mkRows n stage ks → r.stage = stage := by
  intro ks
  induction ks with
  | nil => intro n r hr; cases hr
  | cons k t ih =>
    intro n r hr
    rcases hr with _ | ⟨_, hr⟩
    · rfl
    · exact ih (n + 1) r hr

/-- Loading the SQL bodies rewrites only the `SQL` fields: filenames and
keys are unchanged, position by position. -/
lemma loadBodies_ok {fs : FS} :
    ∀ {l l2 : List Migration}, loadBodies fs l = .ok l2 →
      l2.map (fun m => m.Filename) = l.map (fun m => m.Filename) ∧
      l2.map Key = l.map Key := by
  intro l
  induction l with
  | nil =>
    intro l2 h
    unfold loadBodies at h
    injection h with h
    rw [← h]
    exact ⟨rfl, rfl⟩
  | cons m rest ih =>
    intro l2 h
    unfold loadBodies at h
    rcases h1 : loadBody fs m with e | m2
    · rw [h1] at h
      cases h
    · rw [h1] at h
      rcases h2 : loadBodies fs rest with e | ms
      · rw [h2] at h
        cases h
      · rw [h2] at h
        injection h with h
        obtain ⟨ihf, ihk⟩ := ih h2
        have hm2 : m2.Filename = m.Filename ∧ Key m2 = Key m := by
          unfold loadBody at h1
          rcases h3 : readFile fs m.Filename m.Path with e | c
          · rw [h3] at h1
            cases h1
          · rw [h3] at h1
            injection h1 with h1
            rw [← h1]
            exact ⟨rfl, rfl⟩
        rw [← h]
        simp [hm2.1, hm2.2, ihf, ihk]

/-- Membership of a key in the applied list is membership among the
table's row keys (the reordering of `AppliedMigrations` is a
permutation). -/
lemma appliedMigrations_keys (db : DB) (k : String) :
    (AppliedMigrations db).any (fun item => decide (item.Migration = k)) = true ↔
      k ∈ db.rows.map (fun r => r.migration) := by
  unfold AppliedMigrations
  constructor
  · intro hany
    obtain ⟨x, hx, hpx⟩ := List.any_eq_true.mp hany
    obtain ⟨r, hr, hfr⟩ := List.mem_map.mp hx
    refine List.mem_map.mpr ⟨r, (List.perm_insertionSort rowR db.rows).mem_iff.mp hr, ?_⟩
    have : x.Migration = k := of_decide_eq_true hpx
    rw [← hfr] at this
    exact this
  · intro hk
    obtain ⟨r, hr, hrk⟩ := List.mem_map.mp hk
    refine List.any_eq_true.mpr
      ⟨{ Migration := r.migration, Stage := r.stage },
       List.mem_map.mpr ⟨r, (List.perm_insertionSort rowR db.rows).mem_iff.mpr hr, rfl⟩, ?_⟩
    exact decide_eq_true hrk

/-- Inversion of a committed transaction: the unit of work succeeded on
the begun state and produced the returned state and value. -/
lemma withTransaction_ok_inv {α : Type} {db db2 : DB} {a : α}
    {fn : DB → Except String (DB × α)}
    (h : WithTransaction db fn = (.ok a, db2)) : fn (beginTx db) = .ok (db2, a) := by
  unfold WithTransaction at h
  rcases hfn : fn (beginTx db) with e | da
  · rw [hfn] at h
    exact absurd (Prod.mk.injEq .. ▸ h).1 (by simp)
  · rw [hfn] at h
    obtain ⟨d, a2⟩ := da
    obtain ⟨h1, h2⟩ := Prod.mk.injEq .. ▸ h
    injection h1 with h1
    rw [h1, h2]

/-- C2: `ApplyUp` applies exactly the up-direction files whose key is
absent from the applied history (the pending set, in scan order), and a
second run on the state a successful run produced yields "no changes":
success with no applied filenames, the whole state — including the
transaction counter, so no transaction is opened and no stage is
consumed — returned unchanged. -/
theorem applyUp_idempotent (cfg : Config) (fs : FS) (oracle : String → Bool)
    (db db1 : DB) (files : List String)
    (h : ApplyUp cfg fs oracle db = (.ok files, db1)) :
    (∀ migs, ScanMigrations cfg.MigrationsDir fs.listing = .ok migs →
        files = (pendingOf migs (AppliedMigrations db)).map (fun m => m.Filename)) ∧
    (∀ oracle2 : String → Bool, ApplyUp cfg fs oracle2 db1 = (.ok [], db1)) := by
  unfold ApplyUp at h
  split at h
  · exact absurd (Prod.mk.injEq .. ▸ h).1 (by simp)
  · split at h
    · exact absurd (Prod.mk.injEq .. ▸ h).1 (by simp)
    · rename_i hdir hdsn
      split at h
      · exact absurd (Prod.mk.injEq .. ▸ h).1 (by simp)
      · rename_i migrations hscan
        split at h
        · rename_i hpend0
          obtain ⟨h1, h2⟩ := Prod.mk.injEq .. ▸ h
          injection h1 with h1
          subst h2
          constructor
          · intro migs hmigs
            rw [hscan] at hmigs
            injection hmigs with hmigs
            subst hmigs
            rw [List.length_eq_zero.mp hpend0, ← h1]
            rfl
          · intro oracle2
            unfold ApplyUp
            rw [if_neg hdir, if_neg hdsn]
            simp only [hscan]
            rw [if_pos hpend0]
        · rename_i hpendne
          split at h
          · exact absurd (Prod.mk.injEq .. ▸ h).1 (by simp)
          · rename_i loaded hload
            split at h
            · rename_i a db2 hW
              obtain ⟨h1, h2⟩ := Prod.mk.injEq .. ▸ h
              injection h1 with h1
              subst h2
              have hfn2 : (match runUpTx oracle (MaxStage db + 1) (beginTx db) loaded with
                  | .error e => Except.error e
                  | .ok d2 => Except.ok (d2, ())) = Except.ok (db2, a) :=
                withTransaction_ok_inv hW
              have hrun : runUpTx oracle (MaxStage db + 1) (beginTx db) loaded = .ok db2 := by
                rcases hr : runUpTx oracle (MaxStage db + 1) (beginTx db) loaded with e | d2
                · rw [hr] at hfn2
                  cases hfn2
                · rw [hr] at hfn2
                  injection hfn2 with hfn2
                  exact congrArg Except.ok (congrArg Prod.fst hfn2)
              obtain ⟨hrows, -, -⟩ := runUpTx_ok hrun
              constructor
              · intro migs hmigs
                rw [hscan] at hmigs
                injection hmigs with hmigs
                subst hmigs
                rw [← h1]
                exact ((loadBodies_ok hload).1).symm ▸ rfl
              · intro oracle2
                unfold ApplyUp
                rw [if_neg hdir, if_neg hdsn]
                simp only [hscan]
                have hpend2 : pendingOf migrations (AppliedMigrations db2) = [] := by
                  unfold pendingOf
                  rw [List.filter_eq_nil_iff]
                  intro m hm hcond
                  obtain ⟨hdirup, hnotany⟩ := Bool.and_eq_true .. ▸ hcond
                  have hany_false :
                      (AppliedMigrations db2).any
                        (fun item => decide (item.Migration = Key m)) = false := by
                    cases hb : (AppliedMigrations db2).any
                        (fun item => decide (item.Migration = Key m))
                    · rfl
                    · rw [hb] at hnotany
                      exact absurd hnotany (by simp)
                  have hkey : Key m ∈ db2.rows.map (fun r => r.migration) := by
                    rw [hrows, List.map_append, List.mem_append]
                    by_cases hKm : (AppliedMigrations db).any
                        (fun item => decide (item.Migration = Key m)) = true
                    · left
                      exact (appliedMigrations_keys db (Key m)).mp hKm
                    · right
                      have hmp : m ∈ pendingOf migrations (AppliedMigrations db) := by
                        unfold pendingOf
                        rw [List.mem_filter, Bool.and_eq_true]
                        refine ⟨hm, hdirup, ?_⟩
                        cases hb : (AppliedMigrations db).any
                            (fun item => decide (item.Migration = Key m))
                        · rfl
                        · exact absurd hb hKm
                      have hmem : Key m ∈ (pendingOf migrations
                          (AppliedMigrations db)).map Key :=
                        List.mem_map_of_mem Key hmp
                      rw [← (loadBodies_ok hload).2] at hmem
                      rw [mkRows_migrations]
                      exact hmem
                  have := (appliedMigrations_keys db2 (Key m)).mpr hkey
                  rw [this] at hany_false
                  cases hany_false
                rw [hpend2]
                simp
            · rename_i e db2 hW
              exact absurd (Prod.mk.injEq .. ▸ h).1 (by simp)

/-- Witness for C2: the first run applies the `init` pair (the one
pending file); rerunning on the produced state is a no-change success
with the state returned untouched. -/
theorem applyUp_idempotent_witness :
    ApplyUp exCfg exFsA exOra exDb0 = (.ok ["20250101000000_init.up.sql"], exDb1) ∧
    (ScanMigrations exCfg.MigrationsDir exFsA.listing = .ok exScanA ∧
      ["20250101000000_init.up.sql"] =
        (pendingOf exScanA (AppliedMigrations exDb0)).map (fun m => m.Filename)) ∧
    ApplyUp exCfg exFsA exOra exDb1 = (.ok [], exDb1) :=
  ⟨by decide,
   ⟨by decide,
    (applyUp_idempotent exCfg exFsA exOra exDb0 exDb1 ["20250101000000_init.up.sql"]
      (by decide)).1 exScanA (by decide)⟩,
   (applyUp_idempotent exCfg exFsA exOra exDb0 exDb1 ["20250101000000_init.up.sql"]
      (by decide)).2 exOra⟩

lemma foldl_max_const {v : Int} :
    ∀ (l : List Int) (s0 : Int), (∀ x ∈ l, x = v) → s0 ≤ v → l ≠ [] →
      l.foldl max s0 = v := by
  intro l
  induction l with
  | nil => intro s0 _ _ hne; exact absurd rfl hne
  | cons x t ih =>
    intro s0 hall hle hne
    have hx : x = v := hall x (by simp)
    show (t.foldl max (max s0 x)) = v
    rcases ht : t with - | ⟨y, t2⟩
    · simp [hx, max_eq_right hle]
    · rw [← ht]
      refine ih (max s0 x) (fun z hz => hall z (by simp [hz])) (by rw [hx]; omega)
        (by rw [ht]; simp)

/-- Appending a non-empty block of rows carrying stage `MaxStage + 1`
raises `MaxStage` by exactly one. -/
lemma maxStage_append_new {db db2 : DB} {new : List Row}
    (hrows : db2.rows = db.rows ++ new) (hne : new ≠ [])
    (hstage : ∀ r ∈ new, r.stage = MaxStage db + 1) :
    MaxStage db2 = MaxStage db + 1 := by
  rcases hnew : new with - | ⟨n0, nt⟩
  · exact absurd hnew hne
  subst hnew
  have h0 : n0.stage = MaxStage db + 1 := hstage n0 (by simp)
  rcases hdb : db.rows with - | ⟨r, rs⟩
  · have hMdb : MaxStage db = 0 := by
      unfold MaxStage
      rw [hdb]
      rfl
    have hdb2 : db2.rows = n0 :: nt := by
      rw [hrows, hdb]
      rfl
    have hM2 : MaxStage db2 = (nt.map (fun r => r.stage)).foldl max n0.stage := by
      unfold MaxStage
      rw [hdb2]
      rfl
    rw [hM2]
    rcases hnt : nt with - | ⟨m1, mt⟩
    · simp [h0]
    · rw [← hnt]
      refine @foldl_max_const (MaxStage db + 1) (nt.map (fun r => r.stage)) n0.stage ?_
        (le_of_eq h0) ?_
      · intro x hx
        obtain ⟨rr, hrr, hrx⟩ := List.mem_map.mp hx
        rw [← hrx]
        exact hstage rr (by simp [hrr])
      · rw [hnt]
        simp
  · have hMdb : MaxStage db = (rs.map (fun rr => rr.stage)).foldl max r.stage := by
      unfold MaxStage
      rw [hdb]
      rfl
    have hdb2 : db2.rows = r :: (rs ++ (n0 :: nt)) := by
      rw [hrows, hdb]
      rfl
    have hM2 : MaxStage db2 =
        (((rs ++ (n0 :: nt)).map (fun rr => rr.stage)).foldl max r.stage) := by
      unfold MaxStage
      rw [hdb2]
      rfl
    rw [hM2, List.map_append, List.foldl_append, ← hMdb]
    refine @foldl_max_const (MaxStage db + 1) ((n0 :: nt).map (fun rr => rr.stage))
      (MaxStage db) ?_ (by omega) (by simp)
    intro x hx
    obtain ⟨rr, hrr, hrx⟩ := List.mem_map.mp hx
    rw [← hrx]
    exact hstage rr hrr

lemma mkRows_length (stage : Int) :
    ∀ (ks : List String) (n : Nat), (mkRows n stage ks).length = ks.length := by
  intro ks
  induction ks with
  | nil => intro n; rfl
  | cons k t ih => intro n; simp [mkRows, ih]

/-- C4 (amended): every successful `ApplyUp` run that applies at least
one migration appends exactly one block of rows, all carrying the single
stage number `MaxStage + 1` (so `1` on empty history), and raises
`MaxStage` by exactly one.  Hence `N` successive runs each applying at
least one migration and with no intervening `down` runs produce stages
`1, 2, …, N`.  (A stage number freed by an intervening down run is
however reused — see the counterexample.) -/
theorem applyUp_stage_assignment (cfg : Config) (fs : FS) (oracle : String → Bool)
    (db db1 : DB) (files : List String)
    (h : ApplyUp cfg fs oracle db = (.ok files, db1)) (hne : files ≠ []) :
    (∃ newRows : List Row, db1.rows = db.rows ++ newRows ∧ newRows ≠ [] ∧
        ∀ r ∈ newRows, r.stage = MaxStage db + 1) ∧
    MaxStage db1 = MaxStage db + 1 := by
  unfold ApplyUp at h
  split at h
  · exact absurd (Prod.mk.injEq .. ▸ h).1 (by simp)
  · split at h
    · exact absurd (Prod.mk.injEq .. ▸ h).1 (by simp)
    · split at h
      · exact absurd (Prod.mk.injEq .. ▸ h).1 (by simp)
      · rename_i migrations hscan
        split at h
        · obtain ⟨h1, -⟩ := Prod.mk.injEq .. ▸ h
          injection h1 with h1
          exact absurd h1.symm hne
        · split at h
          · exact absurd (Prod.mk.injEq .. ▸ h).1 (by simp)
          · rename_i loaded hload
            split at h
            · rename_i a db2 hW
              obtain ⟨h1, h2⟩ := Prod.mk.injEq .. ▸ h
              injection h1 with h1
              subst h2
              have hfn2 : (match runUpTx oracle (MaxStage db + 1) (beginTx db) loaded with
                  | .error e => Except.error e
                  | .ok d2 => Except.ok (d2, ())) = Except.ok (db2, a) :=
                withTransaction_ok_inv hW
              have hrun : runUpTx oracle (MaxStage db + 1) (beginTx db) loaded = .ok db2 := by
                rcases hr : runUpTx oracle (MaxStage db + 1) (beginTx db) loaded with e | d2
                · rw [hr] at hfn2
                  cases hfn2
                · rw [hr] at hfn2
                  injection hfn2 with hfn2
                  exact congrArg Except.ok (congrArg Prod.fst hfn2)
              obtain ⟨hrows, -, -⟩ := runUpTx_ok hrun
              have hloadne : loaded ≠ [] := by
                intro hl
                rw [hl] at h1
                exact hne h1.symm
              have hksne : loaded.map Key ≠ [] := by
                intro hl
                exact hloadne (List.map_eq_nil_iff.mp hl)
              have hnewne : mkRows db.nextId (MaxStage db + 1) (loaded.map Key) ≠ [] := by
                intro hl
                have := mkRows_length (MaxStage db + 1) (loaded.map Key) db.nextId
                rw [hl] at this
                exact hksne (List.length_eq_zero.mp this.symm)
              have hrows2 : db2.rows =
                  db.rows ++ mkRows db.nextId (MaxStage db + 1) (loaded.map Key) := hrows
              have hstages : ∀ r ∈ mkRows db.nextId (MaxStage db + 1) (loaded.map Key),
                  r.stage = MaxStage db + 1 :=
                fun r hr => mkRows_stage (MaxStage db + 1) (loaded.map Key) db.nextId r hr
              exact ⟨⟨mkRows db.nextId (MaxStage db + 1) (loaded.map Key),
                      hrows2, hnewne, hstages⟩,
                     maxStage_append_new hrows2 hnewne hstages⟩
            · exact absurd (Prod.mk.injEq .. ▸ h).1 (by simp)

/-- Counterexample for C4 as stated: run `up` on the `init` pair
(stage 1), roll it back (stage 1 freed, history empty), then run `up`
with the `init` and `second` pairs.  This second successful run — the
second of two runs each introducing at least one new migration — assigns
stage `1` to both rows: the freed stage number is reused and the
resulting stages are `[1, 1]`, not `1, 2`. -/
theorem applyUp_stage_reuse_counterexample :
    ((ApplyUp exCfg exFsA exOra exDb0).2.rows.map (fun r => r.stage) = [1]) ∧
    ((ApplyDown exCfg exFsA exOra (ApplyUp exCfg exFsA exOra exDb0).2 1).2.rows = []) ∧
    ((ApplyUp exCfg exFsAB exOra
        (ApplyDown exCfg exFsA exOra (ApplyUp exCfg exFsA exOra exDb0).2 1).2).1 =
      .ok ["20250101000000_init.up.sql", "20250102000000_second.up.sql"]) ∧
    ((ApplyUp exCfg exFsAB exOra
        (ApplyDown exCfg exFsA exOra (ApplyUp exCfg exFsA exOra exDb0).2 1).2).2.rows.map
        (fun r => r.stage) = [1, 1]) := by
  refine ⟨by decide, by decide, by decide, by decide⟩

/-- Witness for the amended C4 at the first example run: the batch on an
empty history gets stage `1` and `MaxStage` becomes `1`. -/
theorem applyUp_stage_assignment_witness :
    (ApplyUp exCfg exFsA exOra exDb0 =
        (.ok ["20250101000000_init.up.sql"],
         { rows := [{ id := 1, migration := "20250101000000_init", stage := 1 }],
           nextId := 2, schemaLog := ["CREATE TABLE t"], txCount := 1 })) ∧
    ((∃ newRows : List Row,
        ({ rows := [{ id := 1, migration := "20250101000000_init", stage := 1 }],
           nextId := 2, schemaLog := ["CREATE TABLE t"], txCount := 1 } : DB).rows =
          exDb0.rows ++ newRows ∧ newRows ≠ [] ∧
          ∀ r ∈ newRows, r.stage = MaxStage exDb0 + 1) ∧
      MaxStage { rows := [{ id := 1, migration := "20250101000000_init", stage := 1 }],
                 nextId := 2, schemaLog := ["CREATE TABLE t"], txCount := 1 } =
        MaxStage exDb0 + 1) :=
  ⟨by decide,
   applyUp_stage_assignment exCfg exFsA exOra exDb0
     { rows := [{ id := 1, migration := "20250101000000_init", stage := 1 }],
       nextId := 2, schemaLog := ["CREATE TABLE t"], txCount := 1 }
     ["20250101000000_init.up.sql"] (by decide) (by decide)⟩

/-- When some key of the list has no entry in the down index, the
rollback transaction body cannot succeed. -/
lemma runDownTx_missing (oracle : String → Bool) (fs : FS)
    (idx : List (String × Migration)) :
    ∀ (l : List String) (st : DB × List String) (name : String),
      name ∈ l → idx.lookup name = none →
      ∃ e, runDownTx oracle fs idx st l = .error e := by
  intro l
  induction l with
  | nil => intro st name hmem; cases hmem
  | cons x t ih =>
    intro st name hmem hmiss
    unfold runDownTx
    rcases hstep : downApplyOne oracle fs idx st x with e | st2
    · exact ⟨e, rfl⟩
    · rcases List.mem_cons.mp hmem with rfl | hmem2
      · unfold downApplyOne at hstep
        rw [hmiss] at hstep
        cases hstep
      · obtain ⟨e, he⟩ := ih st2 name hmem2 hmiss
        exact ⟨e, he⟩

/-- C6: if some key in the rollback list has no down file in the scanned
directory, the whole `ApplyDown` invocation fails: an error is returned
and the rolled-back transaction leaves every history row and all schema
effects exactly as before the call — nothing is partially rolled
back. -/
theorem applyDown_missing_down_fatal (cfg : Config) (fs : FS) (oracle : String → Bool)
    (db : DB) (k : Int) (migs : List Migration) (name : String)
    (hk : 1 ≤ k) (hdir : cfg.MigrationsDir ≠ "") (hdsn : cfg.DSN ≠ "")
    (hscan : ScanMigrations cfg.MigrationsDir fs.listing = .ok migs)
    (hmem : name ∈ rollbackKeys db k.toNat)
    (hmiss : (buildDownIndex migs).lookup name = none) :
    (∃ e, (ApplyDown cfg fs oracle db k).1 = .error e) ∧
    (ApplyDown cfg fs oracle db k).2.rows = db.rows ∧
    (ApplyDown cfg fs oracle db k).2.schemaLog = db.schemaLog := by
  unfold ApplyDown
  rw [if_neg (show ¬k ≤ 0 by omega), if_neg hdir, if_neg hdsn]
  simp only [hscan]
  have hstne : ¬(StagesDesc db).length = 0 := by
    intro h0
    rw [rollbackKeys, selectedStages, List.length_eq_zero.mp h0] at hmem
    simp at hmem
  rw [if_neg hstne]
  have hordne : ¬(rollbackKeys db k.toNat).length = 0 := by
    intro h0
    rw [List.length_eq_zero.mp h0] at hmem
    cases hmem
  rw [if_neg hordne]
  obtain ⟨e, he⟩ := runDownTx_missing oracle fs (buildDownIndex migs)
    (rollbackKeys db k.toNat) (beginTx db, []) name hmem hmiss
  have hW : WithTransaction db (fun d =>
      runDownTx oracle fs (buildDownIndex migs) (d, []) (rollbackKeys db k.toNat)) =
      (.error e, beginTx db) := by
    unfold WithTransaction
    simp only [he]
  rw [hW]
  exact ⟨⟨e, rfl⟩, rfl, rfl⟩

/-- Witness for C6: the `init` migration is applied, but its down file
is gone from disk; a one-stage rollback fails and deletes nothing. -/
theorem applyDown_missing_down_fatal_witness :
    ((1 : Int) ≤ 1 ∧ exCfg.MigrationsDir ≠ "" ∧ exCfg.DSN ≠ "" ∧
      ScanMigrations exCfg.MigrationsDir exFsUpOnly.listing = .ok exScanUpOnly ∧
      "20250101000000_init" ∈ rollbackKeys exDb1 (1 : Int).toNat ∧
      (buildDownIndex exScanUpOnly).lookup "20250101000000_init" = none) ∧
    ((∃ e, (ApplyDown exCfg exFsUpOnly exOra exDb1 1).1 = .error e) ∧
      (ApplyDown exCfg exFsUpOnly exOra exDb1 1).2.rows = exDb1.rows ∧
      (ApplyDown exCfg exFsUpOnly exOra exDb1 1).2.schemaLog = exDb1.schemaLog) ∧
    (ApplyDown exCfg exFsUpOnly exOra exDb1 1).1 =
      .error "missing down migration for 20250101000000_init" :=
  ⟨⟨by decide, by decide, by decide, by decide, by decide, by decide⟩,
   applyDown_missing_down_fatal exCfg exFsUpOnly exOra exDb1 1 exScanUpOnly
     "20250101000000_init" (by decide) (by decide) (by decide) (by decide) (by decide)
     (by decide),
   by decide⟩

/-- The distinct applied stages come out strictly descending. -/
lemma stagesDesc_pairwise (db : DB) :
    (StagesDesc db).Pairwise (fun a b => b < a) := by
  unfold StagesDesc
  have hs : ((db.rows.map (fun r => r.stage)).dedup.insertionSort intDescR).Pairwise
      intDescR :=
    List.sorted_insertionSort intDescR _
  have hnd : ((db.rows.map (fun r => r.stage)).dedup.insertionSort intDescR).Nodup :=
    ((List.perm_insertionSort intDescR _).nodup_iff).mpr
      (List.nodup_dedup (db.rows.map (fun r => r.stage)))
  refine (hs.and hnd).imp ?_
  intro a b hab
  obtain ⟨hle, hne⟩ := hab
  exact lt_of_le_of_ne hle (Ne.symm hne)

/-- Every row selected for one stage comes from the table and carries
that stage. -/
lemma mem_rowsOfStageDesc {db : DB} {s : Int} {r : Row}
    (h : r ∈ rowsOfStageDesc db s) : r ∈ db.rows ∧ r.stage = s := by
  unfold rowsOfStageDesc at h
  have h2 := (List.perm_insertionSort idDescR _).mem_iff.mp h
  obtain ⟨hmem, hp⟩ := List.mem_filter.mp h2
  exact ⟨hmem, of_decide_eq_true hp⟩

/-- Within one stage the selected rows are in strictly decreasing id
order (reverse insertion order), given distinct row ids. -/
lemma rowsOfStageDesc_pairwise (db : DB) (s : Int)
    (hid : (db.rows.map (fun r => r.id)).Nodup) :
    (rowsOfStageDesc db s).Pairwise (fun a b => b.id < a.id) := by
  unfold rowsOfStageDesc
  have hs : ((db.rows.filter (fun r => decide (r.stage = s))).insertionSort
      idDescR).Pairwise idDescR :=
    List.sorted_insertionSort idDescR _
  have hsubnd : ((db.rows.filter (fun r => decide (r.stage = s))).map
      (fun r => r.id)).Nodup :=
    hid.sublist ((List.filter_sublist db.rows).map (fun r => r.id))
  have hnd : (((db.rows.filter (fun r => decide (r.stage = s))).insertionSort
      idDescR).map (fun r => r.id)).Nodup :=
    (((List.perm_insertionSort idDescR _).map (fun r => r.id)).nodup_iff).mpr hsubnd
  rw [List.Nodup, List.pairwise_map] at hnd
  refine (hs.and hnd).imp ?_
  intro a b hab
  obtain ⟨hle, hne⟩ := hab
  have hle2 : b.id ≤ a.id := hle
  omega

/-- Concatenating the per-stage blocks of a strictly descending stage
list yields the rollback order: higher stage first, larger id first
inside a stage. -/
lemma flatMap_rollback_pairwise (db : DB)
    (hid : (db.rows.map (fun r => r.id)).Nodup) :
    ∀ ss : List Int, ss.Pairwise (fun a b => b < a) →
      (ss.flatMap (rowsOfStageDesc db)).Pairwise rbOrder := by
  intro ss
  induction ss with
  | nil =>
    intro _
    simp
  | cons s t ih =>
    intro hp
    obtain ⟨hrel, htail⟩ := List.pairwise_cons.mp hp
    rw [List.flatMap_cons, List.pairwise_append]
    refine ⟨?_, ih htail, ?_⟩
    · refine (rowsOfStageDesc_pairwise db s hid).imp_of_mem ?_
      intro a b ha hb hidlt
      exact Or.inr ⟨by rw [(mem_rowsOfStageDesc ha).2, (mem_rowsOfStageDesc hb).2],
        hidlt⟩
    · intro a ha b hb
      obtain ⟨s2, hs2, hb2⟩ := List.mem_flatMap.mp hb
      left
      rw [(mem_rowsOfStageDesc ha).2, (mem_rowsOfStageDesc hb2).2]
      exact hrel s2 hs2

/-- The rollback keys are exactly the migrations of the rollback rows,
in order. -/
lemma rollbackKeys_eq_map (db : DB) (k : Nat) :
    rollbackKeys db k = (rollbackRows db k).map (fun r => r.migration) := by
  unfold rollbackKeys rollbackRows MigrationsByStage
  rw [List.map_flatMap]

/-- A successful rollback transaction body resolves every key of its
list, in order, to a down file and appends that file's name to the
executed list. -/
lemma runDownTx_ok_files (oracle : String → Bool) (fs : FS)
    (idx : List (String × Migration)) :
    ∀ (l : List String) (st res : DB × List String),
      runDownTx oracle fs idx st l = .ok res →
      ∃ ex, res.2 = st.2 ++ ex ∧
        List.Forall₂ (fun nm f => ∃ m, idx.lookup nm = some m ∧ f = m.Filename) l ex := by
  intro l
  induction l with
  | nil =>
    intro st res h
    unfold runDownTx at h
    injection h with h
    exact ⟨[], by rw [← h]; simp, List.Forall₂.nil⟩
  | cons x t ih =>
    intro st res h
    unfold runDownTx at h
    split at h
    · cases h
    · rename_i st2 hstep
      have hshape : ∃ m, idx.lookup x = some m ∧ st2.2 = st.2 ++ [m.Filename] := by
        unfold downApplyOne at hstep
        split at hstep
        · cases hstep
        · rename_i m hlook
          split at hstep
          · cases hstep
          · rename_i content hread
            split at hstep
            · injection hstep with hstep
              exact ⟨m, hlook, by rw [← hstep]⟩
            · split at hstep
              · cases hstep
              · injection hstep with hstep
                exact ⟨m, hlook, by rw [← hstep]⟩
      obtain ⟨m, hlook, hst2⟩ := hshape
      obtain ⟨ex2, hres, hf⟩ := ih st2 res h
      refine ⟨m.Filename :: ex2, ?_, List.Forall₂.cons ⟨m, hlook, rfl⟩ hf⟩
      rw [hres, hst2, List.append_assoc, List.singleton_append]

/-- C5: the rollback list puts every row of a higher stage before any
row of a lower stage and, within one stage, rows in the exact reverse of
their insertion order (strictly decreasing ids); the keys executed are
exactly that list, and on success the executed filenames follow it one
for one. -/
theorem applyDown_reverse_order (cfg : Config) (fs : FS) (oracle : String → Bool)
    (db : DB) (k : Int) (files : List String) (db2 : DB)
    (hid : (db.rows.map (fun r => r.id)).Nodup)
    (h : ApplyDown cfg fs oracle db k = (.ok files, db2)) :
    (rollbackRows db k.toNat).Pairwise rbOrder ∧
    rollbackKeys db k.toNat = (rollbackRows db k.toNat).map (fun r => r.migration) ∧
    (∃ migs, ScanMigrations cfg.MigrationsDir fs.listing = .ok migs ∧
      List.Forall₂ (fun nm f => ∃ m, (buildDownIndex migs).lookup nm = some m ∧
        f = m.Filename) (rollbackKeys db k.toNat) files) := by
  refine ⟨?_, rollbackKeys_eq_map db k.toNat, ?_⟩
  · exact flatMap_rollback_pairwise db hid (selectedStages db k.toNat)
      (List.Pairwise.sublist (List.take_sublist k.toNat (StagesDesc db))
        (stagesDesc_pairwise db))
  · unfold ApplyDown at h
    split at h
    · exact absurd (Prod.mk.injEq .. ▸ h).1 (by simp)
    · split at h
      · exact absurd (Prod.mk.injEq .. ▸ h).1 (by simp)
      · split at h
        · exact absurd (Prod.mk.injEq .. ▸ h).1 (by simp)
        · split at h
          · exact absurd (Prod.mk.injEq .. ▸ h).1 (by simp)
          · rename_i migrations hscan
            refine ⟨migrations, hscan, ?_⟩
            split at h
            · rename_i hst0
              obtain ⟨h1, -⟩ := Prod.mk.injEq .. ▸ h
              injection h1 with h1
              rw [rollbackKeys, selectedStages, List.length_eq_zero.mp hst0, ← h1]
              simp
            · split at h
              · rename_i hord0
                obtain ⟨h1, -⟩ := Prod.mk.injEq .. ▸ h
                injection h1 with h1
                rw [List.length_eq_zero.mp hord0, ← h1]
                exact List.Forall₂.nil
              · split at h
                · rename_i executed0 db3 hW
                  obtain ⟨h1, h2⟩ := Prod.mk.injEq .. ▸ h
                  injection h1 with h1
                  have hfn : runDownTx oracle fs (buildDownIndex migrations)
                      (beginTx db, []) (rollbackKeys db k.toNat) =
                      .ok (db3, executed0) :=
                    withTransaction_ok_inv hW
                  obtain ⟨ex, hres, hf⟩ := runDownTx_ok_files oracle fs
                    (buildDownIndex migrations) (rollbackKeys db k.toNat)
                    (beginTx db, []) (db3, executed0) hfn
                  rw [← h1]
                  have hex : executed0 = ex := by
                    simpa using hres
                  rw [hex]
                  exact hf
                · exact absurd (Prod.mk.injEq .. ▸ h).1 (by simp)

/-- Witness for C5 on a two-stage table: stage 2's row precedes stage
1's, and the executed filenames follow the rollback keys. -/
theorem applyDown_reverse_order_witness :
    ((exDb2.rows.map (fun r => r.id)).Nodup ∧
      ApplyDown exCfg exFsAB exOra exDb2 2 =
        (.ok ["20250102000000_second.down.sql", "20250101000000_init.down.sql"],
         { rows := [], nextId := 3,
           schemaLog := ["CREATE TABLE t", "CREATE TABLE u", "DROP TABLE u",
                         "DROP TABLE t"],
           txCount := 3 })) ∧
    ((rollbackRows exDb2 (2 : Int).toNat).Pairwise rbOrder ∧
      rollbackKeys exDb2 (2 : Int).toNat =
        (rollbackRows exDb2 (2 : Int).toNat).map (fun r => r.migration) ∧
      (∃ migs, ScanMigrations exCfg.MigrationsDir exFsAB.listing = .ok migs ∧
        List.Forall₂ (fun nm f => ∃ m, (buildDownIndex migs).lookup nm = some m ∧
          f = m.Filename) (rollbackKeys exDb2 (2 : Int).toNat)
          ["20250102000000_second.down.sql", "20250101000000_init.down.sql"])) :=
  ⟨⟨by decide, by decide⟩,
   applyDown_reverse_order exCfg exFsAB exOra exDb2 2
     ["20250102000000_second.down.sql", "20250101000000_init.down.sql"]
     { rows := [], nextId := 3,
       schemaLog := ["CREATE TABLE t", "CREATE TABLE u", "DROP TABLE u", "DROP TABLE t"],
       txCount := 3 }
     (by decide) (by decide)⟩

end Lamigrate
